import Mathlib

/-!
Shallow embedding of a streaming distinct-elements estimator (the CVM
algorithm): a bounded-memory estimator `Cvm` and an ensemble wrapper
`CombinedCvm` that combines several independent estimators by a trimmed
mean.

Randomness is modelled explicitly: each operation that draws random
booleans in the original program takes the outcome sequence as a
parameter, so theorems quantify over all possible coin-flip outcomes.
- `Cvm.add` takes `flips : Nat → Bool`, the outcomes of the up-to-`rounds`
  coin flips consulted by `should_keep`, and `keep : α → Bool`, the
  per-element outcomes consulted by the sweep it may trigger.
- `Cvm.sweep` takes `keep : α → Bool`, one coin outcome per retained
  element.
The fallible ensemble operations (construction with zero members; the
trimmed mean over too few members, which aborts in the original) return
`Option` / `Except`.
-/

/-- State of one estimator: a fixed capacity, the set of currently
retained elements, and the number of sweeps performed so far. -/
structure Cvm (α : Type) where
  capacity : Nat
  memory : Finset α
  rounds : Nat
deriving DecidableEq

namespace Cvm

variable {α : Type} [DecidableEq α]

/-- `Cvm::new`: fixed capacity, empty memory, zero rounds. -/
def new (capacity : Nat) : Cvm α :=
  { capacity := capacity, memory := ∅, rounds := 0 }

/-- `Cvm::should_keep`: flip `coin_flips` fair coins and succeed only if
all come up true; `flips i` is the outcome of the `i`-th flip. -/
def should_keep (coin_flips : Nat) (flips : Nat → Bool) : Bool :=
  (List.range coin_flips).all flips

/-- `Cvm::estimate`: memory size times `2 ^ rounds`, with `rounds`
clamped at 32. -/
def estimate (c : Cvm α) : Nat :=
  let rounds := if c.rounds > 32 then 32 else c.rounds
  c.memory.card * 2 ^ rounds

/-- `Cvm::sweep`: keep each retained element only if its coin outcome
`keep x` is true, then increment `rounds`. -/
def sweep (c : Cvm α) (keep : α → Bool) : Cvm α :=
  { c with memory := c.memory.filter (fun x => keep x = true),
           rounds := c.rounds + 1 }

/-- The insert/remove step of `Cvm::add` (the `match` on `self.rounds`),
before the capacity check. -/
def addStep (c : Cvm α) (value : α) (flips : Nat → Bool) : Cvm α :=
  if c.rounds = 0 then { c with memory := insert value c.memory }
  else if should_keep c.rounds flips then
    { c with memory := insert value c.memory }
  else if value ∈ c.memory then
    { c with memory := c.memory.erase value }
  else
    c

/-- `Cvm::add`: the insert/remove step, then a sweep whenever the memory
size has reached the capacity. -/
def add (c : Cvm α) (value : α) (flips : Nat → Bool) (keep : α → Bool) :
    Cvm α :=
  let s := addStep c value flips
  if s.memory.card ≥ s.capacity then s.sweep keep else s

/-- `Cvm::extend`, with the coin outcomes of every `add` call supplied
alongside each element; folds `add` over the list in order. -/
def addSeq (c : Cvm α) (inputs : List (α × (Nat → Bool) × (α → Bool))) :
    Cvm α :=
  inputs.foldl (fun acc i => acc.add i.1 i.2.1 i.2.2) c

/-- A call to `estimate` through a shared borrow (`&self` in the
original): it returns the estimate and leaves the state as it was. -/
def estimateCall (c : Cvm α) : Nat × Cvm α :=
  (c.estimate, c)

end Cvm

/-- Reason the ensemble's trimmed-mean computation aborts in the
original program. -/
inductive EstimateError : Type
  | removeOutOfBounds
  | divisionByZero
deriving DecidableEq

/-- Ensemble of independent estimators (`CombinedCvm`). -/
structure CombinedCvm (α : Type) where
  cvms : List (Cvm α)
deriving DecidableEq

namespace CombinedCvm

variable {α : Type} [DecidableEq α]

/-- `CombinedCvm::new`: aborts (`none`) when `len` is zero, otherwise
builds `len` fresh estimators of the given capacity. -/
def new (capacity len : Nat) : Option (CombinedCvm α) :=
  if len = 0 then none
  else some ⟨(List.range len).map (fun _ => Cvm.new capacity)⟩

/-- `CombinedCvm::add`: add the value to every member, each with its own
coin outcomes. -/
def add (cc : CombinedCvm α) (value : α)
    (flips : Nat → Nat → Bool) (keep : Nat → α → Bool) : CombinedCvm α :=
  ⟨(cc.cvms.enum).map (fun p => p.2.add value (flips p.1) (keep p.1))⟩

/-- `CombinedCvm::estimate`: sort the member estimates ascending, pop the
last (largest), remove index 0 (smallest; aborts when the vector is
empty), and divide the sum of the rest by its length (aborts when that
length is zero). -/
def estimate (cc : CombinedCvm α) : Except EstimateError Nat :=
  let ests := cc.cvms.map Cvm.estimate
  let sorted := List.insertionSort (· ≤ ·) ests
  match sorted.dropLast with
  | [] => .error .removeOutOfBounds
  | _ :: rest =>
    if rest.length = 0 then .error .divisionByZero
    else .ok (rest.sum / rest.length)

end CombinedCvm

/-- The spec's description of the ensemble combination step: sort the
estimates ascending, discard the single smallest and the single largest,
and return the integer-truncated mean of the remainder. -/
def trimmedMean (ests : List Nat) : Nat :=
  let sorted := List.insertionSort (· ≤ ·) ests
  let mid := sorted.tail.dropLast
  mid.sum / mid.length

/-- A five-member ensemble whose members report the individual estimates
10, 20, 30, 40 and 1000. -/
def ensembleFive : CombinedCvm Nat :=
  ⟨[⟨2000, Finset.range 10, 0⟩, ⟨2000, Finset.range 10, 1⟩,
    ⟨2000, Finset.range 15, 1⟩, ⟨2000, Finset.range 10, 2⟩,
    ⟨2000, Finset.range 125, 3⟩]⟩

namespace Cvm

variable {α : Type}

@[simp]
lemma addStep_rounds [DecidableEq α] (c : Cvm α) (v : α) (flips : Nat → Bool) :
    (c.addStep v flips).rounds = c.rounds := by
  unfold addStep; split_ifs <;> rfl

@[simp]
lemma addStep_capacity [DecidableEq α] (c : Cvm α) (v : α) (flips : Nat → Bool) :
    (c.addStep v flips).capacity = c.capacity := by
  unfold addStep; split_ifs <;> rfl

@[simp]
lemma sweep_rounds (c : Cvm α) (keep : α → Bool) :
    (c.sweep keep).rounds = c.rounds + 1 := rfl

@[simp]
lemma sweep_capacity (c : Cvm α) (keep : α → Bool) :
    (c.sweep keep).capacity = c.capacity := rfl

lemma add_eq [DecidableEq α] (c : Cvm α) (v : α) (flips : Nat → Bool) (keep : α → Bool) :
    c.add v flips keep =
      if (c.addStep v flips).memory.card ≥ c.capacity then
        (c.addStep v flips).sweep keep
      else c.addStep v flips := by
  simp only [add, addStep_capacity]

lemma should_keep_zero (flips : Nat → Bool) : should_keep 0 flips = true := rfl

lemma addStep_memory [DecidableEq α] (c : Cvm α) (v : α) (flips : Nat → Bool) :
    (c.addStep v flips).memory =
      if should_keep c.rounds flips then insert v c.memory
      else if v ∈ c.memory then c.memory.erase v
      else c.memory := by
  unfold addStep
  split_ifs with h0 hk hk hm hm <;>
    simp_all [should_keep_zero]

lemma addStep_card_le [DecidableEq α] (c : Cvm α) (v : α) (flips : Nat → Bool) :
    (c.addStep v flips).memory.card ≤ c.memory.card + 1 := by
  rw [addStep_memory]
  split_ifs with hk hm
  · exact Finset.card_insert_le v c.memory
  · exact le_trans Finset.card_erase_le (Nat.le_succ _)
  · exact Nat.le_succ _

lemma sweep_card_le (c : Cvm α) (keep : α → Bool) :
    (c.sweep keep).memory.card ≤ c.memory.card :=
  Finset.card_filter_le c.memory _

lemma add_rounds_le [DecidableEq α] (c : Cvm α) (v : α) (flips : Nat → Bool)
    (keep : α → Bool) : c.rounds ≤ (c.add v flips keep).rounds := by
  rw [add_eq]
  split_ifs <;> simp

lemma addSeq_cons [DecidableEq α] (c : Cvm α) (i : α × (Nat → Bool) × (α → Bool))
    (t : List (α × (Nat → Bool) × (α → Bool))) :
    c.addSeq (i :: t) = (c.add i.1 i.2.1 i.2.2).addSeq t := rfl

lemma addSeq_rounds_le [DecidableEq α] (c : Cvm α)
    (inputs : List (α × (Nat → Bool) × (α → Bool))) :
    c.rounds ≤ (c.addSeq inputs).rounds := by
  induction inputs generalizing c with
  | nil => exact le_refl _
  | cons i t ih =>
    exact le_trans (add_rounds_le c i.1 i.2.1 i.2.2) (ih _)

end Cvm

/-- C2: `add(value)` flips a fair coin `rounds` times and inserts the
value into memory exactly when all flips are true (vacuously so when
`rounds = 0`); when the decision is "do not retain", a present value is
removed and an absent one leaves the state unchanged; after this
insert/remove step a sweep is triggered exactly when the memory size has
reached the capacity. -/
theorem cvm_add_spec {α : Type} [DecidableEq α] (c : Cvm α) (v : α)
    (flips : Nat → Bool) (keep : α → Bool) :
    (Cvm.should_keep c.rounds flips = true ↔ ∀ i < c.rounds, flips i = true)
    ∧ (c.addStep v flips).memory =
        (if Cvm.should_keep c.rounds flips then insert v c.memory
         else if v ∈ c.memory then c.memory.erase v
         else c.memory)
    ∧ (c.addStep v flips).rounds = c.rounds
    ∧ (c.addStep v flips).capacity = c.capacity
    ∧ c.add v flips keep =
        (if (c.addStep v flips).memory.card ≥ c.capacity then
          (c.addStep v flips).sweep keep
         else c.addStep v flips)
    ∧ ((c.add v flips keep).rounds = c.rounds + 1 ↔
        (c.addStep v flips).memory.card ≥ c.capacity) := by
  refine ⟨?_, c.addStep_memory v flips, c.addStep_rounds v flips,
    c.addStep_capacity v flips, c.add_eq v flips keep, ?_⟩
  · simp [Cvm.should_keep, List.all_eq_true, List.mem_range]
  · rw [Cvm.add_eq]
    split_ifs with h <;> simp [h]

/-- C3: `sweep()` keeps exactly the retained elements whose coin outcome
is true, increments `rounds` by one, and changes no other field. -/
theorem cvm_sweep_spec {α : Type} [DecidableEq α] (c : Cvm α)
    (keep : α → Bool) :
    (∀ x, x ∈ (c.sweep keep).memory ↔ x ∈ c.memory ∧ keep x = true)
    ∧ (c.sweep keep).rounds = c.rounds + 1
    ∧ (c.sweep keep).capacity = c.capacity := by
  refine ⟨fun x => ?_, rfl, rfl⟩
  simp [Cvm.sweep, Finset.mem_filter]

/-- C4: `estimate()` returns `memory.size() * 2 ^ min(rounds, 32)`; it is
0 on a freshly constructed estimator and is always a non-negative
integer. -/
theorem cvm_estimate_spec {α : Type} [DecidableEq α] (c : Cvm α)
    (cap : Nat) :
    c.estimate = c.memory.card * 2 ^ min c.rounds 32
    ∧ (Cvm.new cap : Cvm α).estimate = 0
    ∧ 0 ≤ c.estimate := by
  have h : (if c.rounds > 32 then 32 else c.rounds) = min c.rounds 32 := by
    rw [Nat.min_def]; split_ifs <;> omega
  refine ⟨?_, ?_, Nat.zero_le _⟩
  · rw [Cvm.estimate, h]
  · simp [Cvm.estimate, Cvm.new]

/-- C7: the `rounds` counter starts at 0 and never decreases: any single
`add` call, and hence any sequence of `add` calls with any coin-flip
outcomes, leaves `rounds` the same or larger. -/
theorem cvm_rounds_monotone {α : Type} [DecidableEq α] (cap : Nat)
    (c : Cvm α) (v : α) (flips : Nat → Bool) (keep : α → Bool)
    (inputs : List (α × (Nat → Bool) × (α → Bool))) :
    (Cvm.new cap : Cvm α).rounds = 0
    ∧ c.rounds ≤ (c.add v flips keep).rounds
    ∧ c.rounds ≤ (c.addSeq inputs).rounds :=
  ⟨rfl, c.add_rounds_le v flips keep, c.addSeq_rounds_le inputs⟩

/-- C8: reading the estimate through a shared borrow returns the same
value on every repeated call and leaves capacity, memory and rounds
unchanged. -/
theorem cvm_estimate_idempotent {α : Type} [DecidableEq α] (c : Cvm α) :
    (c.estimateCall.2.estimateCall.1 = c.estimateCall.1
      ∧ c.estimateCall.2.estimateCall.2 = c)
    ∧ c.estimateCall.2.capacity = c.capacity
    ∧ c.estimateCall.2.memory = c.memory
    ∧ c.estimateCall.2.rounds = c.rounds :=
  ⟨⟨rfl, rfl⟩, rfl, rfl, rfl⟩

lemma combined_estimate_eq {α : Type} [DecidableEq α] (cc : CombinedCvm α) :
    cc.estimate =
      match (List.insertionSort (· ≤ ·) (cc.cvms.map Cvm.estimate)).dropLast with
      | [] => Except.error EstimateError.removeOutOfBounds
      | _ :: rest =>
        if rest.length = 0 then Except.error EstimateError.divisionByZero
        else Except.ok (rest.sum / rest.length) := rfl

lemma sorted_length {α : Type} [DecidableEq α] (cc : CombinedCvm α) :
    (List.insertionSort (· ≤ ·) (cc.cvms.map Cvm.estimate)).length
      = cc.cvms.length := by
  rw [List.length_insertionSort, List.length_map]

/-- C6: constructing the ensemble with zero members fails and produces no
object, while any member count of at least one succeeds and yields
exactly that many members, each a fresh estimator of the given
capacity. -/
theorem combined_new_spec {α : Type} (cap len : Nat) :
    (len = 0 → (CombinedCvm.new cap len : Option (CombinedCvm α)) = none)
    ∧ (1 ≤ len → ∃ cc : CombinedCvm α,
        CombinedCvm.new cap len = some cc
        ∧ cc.cvms.length = len
        ∧ ∀ c ∈ cc.cvms, c = Cvm.new cap) := by
  constructor
  · intro h
    simp [CombinedCvm.new, h]
  · intro h
    have hne : len ≠ 0 := by omega
    refine ⟨⟨(List.range len).map (fun _ => Cvm.new cap)⟩, ?_, ?_, ?_⟩
    · simp [CombinedCvm.new, hne]
    · simp
    · intro c hc
      rw [List.mem_map] at hc
      obtain ⟨x, _, rfl⟩ := hc
      rfl

/-- C6 witness: with capacity 7, member count 0 fails to construct and
member count 3 yields three fresh estimators. -/
theorem combined_new_spec_witness :
    (CombinedCvm.new 7 0 : Option (CombinedCvm Nat)) = none
    ∧ ∃ cc : CombinedCvm Nat, CombinedCvm.new 7 3 = some cc
        ∧ cc.cvms.length = 3 ∧ ∀ c ∈ cc.cvms, c = Cvm.new 7 :=
  ⟨(combined_new_spec 7 0).1 rfl, (combined_new_spec 7 3).2 (by decide)⟩

/-- C10: on an ensemble with at most two members, every call to
`estimate` aborts: with at most one member the trimming step removes
from an empty vector, and with exactly two members the final mean
divides by zero. -/
theorem combined_estimate_panics {α : Type} [DecidableEq α]
    (cc : CombinedCvm α) (h : cc.cvms.length ≤ 2) :
    (∃ e, cc.estimate = Except.error e)
    ∧ (cc.cvms.length ≤ 1 →
        cc.estimate = Except.error EstimateError.removeOutOfBounds)
    ∧ (cc.cvms.length = 2 →
        cc.estimate = Except.error EstimateError.divisionByZero) := by
  have hlen := sorted_length cc
  rw [combined_estimate_eq cc]
  revert hlen
  generalize List.insertionSort (· ≤ ·) (cc.cvms.map Cvm.estimate) = S
  intro hlen
  rcases S with _ | ⟨a, _ | ⟨b, _ | ⟨e, S'⟩⟩⟩
  · refine ⟨⟨EstimateError.removeOutOfBounds, rfl⟩, fun _ => rfl, fun h2 => ?_⟩
    simp at hlen
    omega
  · refine ⟨⟨EstimateError.removeOutOfBounds, rfl⟩, fun _ => rfl, fun h2 => ?_⟩
    simp at hlen
    omega
  · refine ⟨⟨EstimateError.divisionByZero, rfl⟩, fun h1 => ?_, fun _ => rfl⟩
    simp at hlen
    omega
  · exfalso
    simp at hlen
    omega

/-- C10 witness: a one-member ensemble aborts in the removal step and a
two-member ensemble aborts with a division by zero. -/
theorem combined_estimate_panics_witness :
    (⟨[Cvm.new 4]⟩ : CombinedCvm Nat).cvms.length ≤ 2
    ∧ (⟨[Cvm.new 4, Cvm.new 9]⟩ : CombinedCvm Nat).cvms.length ≤ 2
    ∧ (⟨[Cvm.new 4]⟩ : CombinedCvm Nat).estimate
        = Except.error EstimateError.removeOutOfBounds
    ∧ (⟨[Cvm.new 4, Cvm.new 9]⟩ : CombinedCvm Nat).estimate
        = Except.error EstimateError.divisionByZero :=
  ⟨by decide, by decide,
    (combined_estimate_panics (⟨[Cvm.new 4]⟩ : CombinedCvm Nat)
      (by decide)).2.1 (by decide),
    (combined_estimate_panics (⟨[Cvm.new 4, Cvm.new 9]⟩ : CombinedCvm Nat)
      (by decide)).2.2 (by decide)⟩

/-- C5: on an ensemble with at least three members, `estimate` succeeds
and returns the trimmed mean of the member estimates: sort ascending,
discard the single smallest and single largest, and take the
integer-truncated mean of the rest. -/
theorem combined_estimate_trimmed {α : Type} [DecidableEq α]
    (cc : CombinedCvm α) (h : 3 ≤ cc.cvms.length) :
    cc.estimate = Except.ok (trimmedMean (cc.cvms.map Cvm.estimate)) := by
  have hlen := sorted_length cc
  rw [combined_estimate_eq cc]
  simp only [trimmedMean]
  revert hlen
  generalize List.insertionSort (· ≤ ·) (cc.cvms.map Cvm.estimate) = S
  intro hlen
  rcases S with _ | ⟨a, _ | ⟨b, _ | ⟨e, S'⟩⟩⟩
  · simp at hlen; omega
  · simp at hlen; omega
  · simp at hlen; omega
  · simp [List.dropLast_cons₂]

set_option maxRecDepth 4000 in
/-- C5 witness: the five-member ensemble reporting estimates
`[10, 20, 30, 40, 1000]` yields the trimmed mean 30. -/
theorem combined_estimate_trimmed_witness :
    3 ≤ ensembleFive.cvms.length
    ∧ ensembleFive.estimate = Except.ok 30 := by
  have h30 : trimmedMean (ensembleFive.cvms.map Cvm.estimate) = 30 := by decide
  refine ⟨by decide, ?_⟩
  rw [combined_estimate_trimmed ensembleFive (by decide), h30]

/-- C1 counterexample: with capacity 1, a single `add` whose sweep coins
all come up true returns with `memory.size()` equal to the capacity, so
the bound `memory.size() < capacity` does not hold after every `add` for
every coin-flip outcome sequence. -/
theorem cvm_memory_bound_counterexample :
    ¬ (((Cvm.new 1 : Cvm Nat).add 0 (fun _ => true) (fun _ => true)).memory.card
        < ((Cvm.new 1 : Cvm Nat).add 0 (fun _ => true) (fun _ => true)).capacity) := by
  decide

/-- C1 amended: an `add` call grows the memory by at most one element;
`memory.size() < capacity` is guaranteed after an `add` exactly in the
case where the insert/remove step already leaves the size below the
capacity (so that no sweep is triggered) — when a sweep is triggered the
resulting size is whatever the sweep's coin flips leave behind, which
can reach or exceed the capacity. -/
theorem cvm_memory_bound_amended {α : Type} [DecidableEq α] (c : Cvm α)
    (v : α) (flips : Nat → Bool) (keep : α → Bool) :
    (c.add v flips keep).memory.card ≤ c.memory.card + 1
    ∧ ((c.addStep v flips).memory.card < c.capacity →
        c.add v flips keep = c.addStep v flips
        ∧ (c.add v flips keep).memory.card < (c.add v flips keep).capacity) := by
  constructor
  · rw [Cvm.add_eq]
    split_ifs with hs
    · exact le_trans (Cvm.sweep_card_le _ keep) (c.addStep_card_le v flips)
    · exact c.addStep_card_le v flips
  · intro h
    have hlt : ¬ ((c.addStep v flips).memory.card ≥ c.capacity) := by omega
    rw [Cvm.add_eq, if_neg hlt]
    exact ⟨rfl, by rw [Cvm.addStep_capacity]; exact h⟩

/-- C1 amended, witness: with capacity 5 and an element added to a fresh
estimator, no sweep is triggered and the size stays below the
capacity. -/
theorem cvm_memory_bound_amended_witness :
    ((Cvm.new 5 : Cvm Nat).add 3 (fun _ => true) (fun _ => true)).memory.card
      ≤ (Cvm.new 5 : Cvm Nat).memory.card + 1
    ∧ (Cvm.new 5 : Cvm Nat).add 3 (fun _ => true) (fun _ => true)
        = (Cvm.new 5 : Cvm Nat).addStep 3 (fun _ => true)
    ∧ ((Cvm.new 5 : Cvm Nat).add 3 (fun _ => true) (fun _ => true)).memory.card
        < ((Cvm.new 5 : Cvm Nat).add 3 (fun _ => true) (fun _ => true)).capacity := by
  have h := cvm_memory_bound_amended (Cvm.new 5 : Cvm Nat) 3
    (fun _ => true) (fun _ => true)
  exact ⟨h.1, (h.2 (by decide)).1, (h.2 (by decide)).2⟩

/-- C9 counterexample: with capacity 0, the very first `add` triggers a
sweep (the capacity check holds), but the set the sweep operates on is
`{7}` — the just-inserted element — and not the empty set. -/
theorem cvm_capacity_zero_counterexample :
    (Cvm.new 0 : Cvm Nat).capacity = 0
    ∧ ((Cvm.new 0 : Cvm Nat).addStep 7 (fun _ => true)).memory.card
        ≥ ((Cvm.new 0 : Cvm Nat).addStep 7 (fun _ => true)).capacity
    ∧ ((Cvm.new 0 : Cvm Nat).addStep 7 (fun _ => true)).memory ≠ (∅ : Finset Nat) := by
  decide

/-- C9 amended: constructing an estimator with capacity 0 is not an
error (it yields the evident state with empty memory and zero rounds);
in that degenerate mode every `add` call triggers a sweep — on the
memory as left by the insert/remove step, which need not be empty — so
`rounds` increases by exactly 1 on every `add` regardless of the
coin-flip outcomes. -/
theorem cvm_capacity_zero_amended {α : Type} [DecidableEq α] (c : Cvm α)
    (v : α) (flips : Nat → Bool) (keep : α → Bool) (h : c.capacity = 0) :
    (Cvm.new 0 : Cvm α).capacity = 0
    ∧ (Cvm.new 0 : Cvm α).memory = ∅
    ∧ (Cvm.new 0 : Cvm α).rounds = 0
    ∧ (c.add v flips keep).rounds = c.rounds + 1 := by
  refine ⟨rfl, rfl, rfl, ?_⟩
  rw [Cvm.add_eq]
  have hge : (c.addStep v flips).memory.card ≥ c.capacity := by
    rw [h]; exact Nat.zero_le _
  simp [hge]

/-- C9 amended, witness: on a fresh capacity-0 estimator, one `add` with
all coins false still performs a sweep and raises `rounds` to 1. -/
theorem cvm_capacity_zero_amended_witness :
    (Cvm.new 0 : Cvm Nat).capacity = 0
    ∧ (Cvm.new 0 : Cvm Nat).memory = ∅
    ∧ (Cvm.new 0 : Cvm Nat).rounds = 0
    ∧ (((Cvm.new 0 : Cvm Nat).add 1 (fun _ => false) (fun _ => false)).rounds
        = (Cvm.new 0 : Cvm Nat).rounds + 1) :=
  cvm_capacity_zero_amended (Cvm.new 0 : Cvm Nat) 1
    (fun _ => false) (fun _ => false) rfl

example : Cvm.should_keep 0 (fun _ => false) = true := by decide
example : Cvm.should_keep 2 (fun i => i = 0) = false := by decide
example :
    ((Cvm.new 1 : Cvm Nat).add 0 (fun _ => true) (fun _ => true)).memory.card
      = 1 := by decide
example :
    CombinedCvm.estimate (⟨[Cvm.new 3, Cvm.new 3]⟩ : CombinedCvm Nat)
      = .error .divisionByZero := by rfl
